import Mathlib

/-!
Verification of the LCOV coverage-threshold checker (`tool/check_coverage.py`).

Embedding conventions:
* A Python string is a `List Char` (abbreviated `Str`).
* A Python `int` is an `Int` (Python integers are unbounded).
* The input file is a list of lines (`List Str`); `open`/iteration is modelled
  by `main` taking `Option (List Str)` (`none` = file absent, mirroring the
  `os.path.isfile` guard).
* Percentage arithmetic is embedded in `ℚ` (exact division standing in for
  Python float division; the threshold 78.0 is exactly representable).
* A raised `ValueError` from `int(...)` is `Except.error PyErr.valueError`.
* `print(...)` calls are modelled as an ordered list of events tagged with the
  output channel; the formatted text is abstracted to a constructor carrying
  the interpolated values.
-/

abbrev Str := List Char

/-- Python `str.isspace`-style whitespace test for the ASCII whitespace
characters recognised by `str.strip()` / `int()`. -/
def pyIsSpace (c : Char) : Bool :=
  c = ' ' || c = '\t' || c = '\n' || c = '\x0b' || c = '\x0c' || c = '\r'

/-- Python `line.strip()`: remove leading and trailing whitespace. -/
def pyStrip (s : Str) : Str :=
  ((s.dropWhile pyIsSpace).reverse.dropWhile pyIsSpace).reverse

/-- Value of an ASCII digit. -/
def digitVal (c : Char) : Nat := c.toNat - 48

/-- Digits of a Python integer literal after the first digit: each further
character is a digit or an underscore followed by a digit (Python 3 allows
single underscores between digits). -/
def pyDigitsAux : Str → Nat → Option Nat
  | [], acc => some acc
  | '_' :: c :: rest, acc =>
      if c.isDigit then pyDigitsAux rest (acc * 10 + digitVal c) else none
  | c :: rest, acc =>
      if c.isDigit then pyDigitsAux rest (acc * 10 + digitVal c) else none

/-- An unsigned Python integer literal: a digit followed by `pyDigitsAux`. -/
def pyIntCore : Str → Option Nat
  | [] => none
  | c :: rest => if c.isDigit then pyDigitsAux rest (digitVal c) else none

/-- Python `int(s)`: strip surrounding whitespace, optional single sign, then
an unsigned literal.  Returns `none` where Python raises `ValueError`.
(Python additionally accepts non-ASCII Unicode digits, which no LCOV file
contains; they are not modelled.) -/
def pyInt (s : Str) : Option Int :=
  match pyStrip s with
  | '-' :: rest => (pyIntCore rest).map (fun n => -(n : Int))
  | '+' :: rest => (pyIntCore rest).map (fun n => (n : Int))
  | t => (pyIntCore t).map (fun n => (n : Int))

/-- The exceptions the script can raise while parsing. -/
inductive PyErr
  | valueError
deriving DecidableEq

/-- The directive tags tested with `line.startswith(...)` in `parse_lcov`. -/
def sfTag : Str := ['S', 'F', ':']

def lfTag : Str := ['L', 'F', ':']

def lhTag : Str := ['L', 'H', ':']

/-- The literal `end_of_record` line. -/
def eorLine : Str :=
  ['e', 'n', 'd', '_', 'o', 'f', '_', 'r', 'e', 'c', 'o', 'r', 'd']

/-- The local variables of `parse_lcov` (running totals, record list so far,
and the three per-file accumulators). -/
structure PState where
  total_found : Int
  total_hit : Int
  per_file : List (Str × Int × Int)
  current_file : Str
  file_found : Int
  file_hit : Int
deriving DecidableEq

/-- The state after the `end_of_record` branch: add the per-file accumulators
into the running totals, append the closed record, reset the accumulators. -/
def eorNext (st : PState) : PState :=
  { total_found := st.total_found + st.file_found
    total_hit := st.total_hit + st.file_hit
    per_file := st.per_file ++ [(st.current_file, st.file_hit, st.file_found)]
    current_file := []
    file_found := 0
    file_hit := 0 }

/-- One iteration of the `for line in f` loop of `parse_lcov`: strip the line,
then the `startswith` / equality chain in source order (`SF:`, `LF:`, `LH:`,
`end_of_record`, otherwise ignore).  `int(line[3:])` failing is
`Except.error PyErr.valueError`. -/
def stepLine (st : PState) (raw : Str) : Except PyErr PState :=
  if sfTag.isPrefixOf (pyStrip raw) then
    Except.ok { st with current_file := (pyStrip raw).drop 3 }
  else if lfTag.isPrefixOf (pyStrip raw) then
    match pyInt ((pyStrip raw).drop 3) with
    | some n => Except.ok { st with file_found := n }
    | none => Except.error PyErr.valueError
  else if lhTag.isPrefixOf (pyStrip raw) then
    match pyInt ((pyStrip raw).drop 3) with
    | some n => Except.ok { st with file_hit := n }
    | none => Except.error PyErr.valueError
  else if pyStrip raw = eorLine then
    Except.ok (eorNext st)
  else
    Except.ok st

/-- Run the loop body over the remaining lines, stopping at the first raised
exception. -/
def runLines : PState → List Str → Except PyErr PState
  | st, [] => Except.ok st
  | st, l :: ls =>
    match stepLine st l with
    | Except.ok st' => runLines st' ls
    | Except.error e => Except.error e

/-- The initial accumulator values of `parse_lcov`. -/
def initState : PState :=
  { total_found := 0, total_hit := 0, per_file := []
    current_file := [], file_found := 0, file_hit := 0 }

/-- `parse_lcov`, with the already-read lines of the file as input: returns
`(total_hit, total_found, per_file)`. -/
def parse_lcov (lines : List Str) :
    Except PyErr (Int × Int × List (Str × Int × Int)) :=
  (runLines initState lines).map fun st =>
    (st.total_hit, st.total_found, st.per_file)

/-- A line on which the loop body raises: it enters the `LF:` or `LH:` branch
and its payload is not parseable by Python's `int`. -/
def badLine (l : Str) : Bool :=
  (lfTag.isPrefixOf (pyStrip l) || lhTag.isPrefixOf (pyStrip l)) &&
    (pyInt ((pyStrip l).drop 3)).isNone

/-- `MIN_COVERAGE = 78.0`. -/
def minCoverage : ℚ := 78

/-- The list-comprehension predicate in `main`:
`found > 0 and (hit / found) * 100 < MIN_COVERAGE`. -/
def belowFilter (minPct : ℚ) (r : Str × Int × Int) : Bool :=
  decide (0 < r.2.2) && decide ((r.2.1 : ℚ) / (r.2.2 : ℚ) * 100 < minPct)

/-- The sort key `(x[1] / x[2]) if x[2] else 0` used by `below.sort`. -/
def belowKey (r : Str × Int × Int) : ℚ :=
  if r.2.2 ≠ 0 then (r.2.1 : ℚ) / (r.2.2 : ℚ) else 0

/-- The per-file percentage `(hit / found) * 100` of a record. -/
def recPct (r : Str × Int × Int) : ℚ :=
  (r.2.1 : ℚ) / (r.2.2 : ℚ) * 100

/-- The `below` list of `main`: filter the records, then Python's stable
ascending sort by `belowKey` (sorting an empty list is the identity, so the
`if below:` guard is immaterial). -/
def files_below (minPct : ℚ) (recs : List (Str × Int × Int)) :
    List (Str × Int × Int) :=
  (recs.filter (belowFilter minPct)).mergeSort
    (fun a b => decide (belowKey a ≤ belowKey b))

/-- Output channels of the script. -/
inductive Channel
  | stdout
  | stderr
deriving DecidableEq

/-- The individual `print` calls of `main`, abstracted to constructors carrying
the interpolated values, plus the interpreter's traceback for an uncaught
exception. -/
inductive Msg
  | coverageFileNotFound
  | runFlutterTest
  | noLinesFound
  | filesBelowHeader (minPct : ℚ)
  | fileLine (pct : ℚ) (name : Str)
  | overallLine (pct : ℚ) (hit found : Int)
  | failedLine (pct minPct : ℚ)
  | passedLine (minPct : ℚ)
  | uncaught (e : PyErr)
deriving DecidableEq

/-- `main`, with the coverage file's lines as input (`none` when
`os.path.isfile` is false).  Returns the process exit code together with the
ordered output events. -/
def mainRun (content : Option (List Str)) : Nat × List (Channel × Msg) :=
  match content with
  | none =>
    (1, [(Channel.stderr, Msg.coverageFileNotFound),
         (Channel.stderr, Msg.runFlutterTest)])
  | some lines =>
    match parse_lcov lines with
    | Except.error e => (1, [(Channel.stderr, Msg.uncaught e)])
    | Except.ok (total_hit, total_found, per_file) =>
      if total_found = 0 then
        (1, [(Channel.stderr, Msg.noLinesFound)])
      else
        let coverage : ℚ := (total_hit : ℚ) / (total_found : ℚ) * 100
        let below := files_below minCoverage per_file
        let belowMsgs : List (Channel × Msg) :=
          if below = [] then []
          else
            (Channel.stdout, Msg.filesBelowHeader minCoverage) ::
              below.map (fun r =>
                (Channel.stdout,
                 Msg.fileLine ((r.2.1 : ℚ) / (r.2.2 : ℚ) * 100) r.1))
        let overallMsg : Channel × Msg :=
          (Channel.stdout, Msg.overallLine coverage total_hit total_found)
        if coverage < minCoverage then
          (1, belowMsgs ++
              [overallMsg, (Channel.stderr, Msg.failedLine coverage minCoverage)])
        else
          (0, belowMsgs ++ [overallMsg, (Channel.stdout, Msg.passedLine minCoverage)])

/-- The process exit code of a run. -/
def mainExit (content : Option (List Str)) : Nat :=
  (mainRun content).1

/-- Sum of `lines_found` over a record list. -/
def sumFound (recs : List (Str × Int × Int)) : Int :=
  (recs.map (fun r => r.2.2)).sum

/-- Sum of `lines_hit` over a record list. -/
def sumHit (recs : List (Str × Int × Int)) : Int :=
  (recs.map (fun r => r.2.1)).sum

/-- Invariant of `parse_lcov`: the running totals equal the sums over the
records closed so far. -/
def totalsInv (st : PState) : Prop :=
  st.total_found = sumFound st.per_file ∧ st.total_hit = sumHit st.per_file

/-- Invariant for C9: the per-file accumulators and every closed record are
non-negative. -/
def nonnegInv (st : PState) : Prop :=
  0 ≤ st.file_found ∧ 0 ≤ st.file_hit ∧
    ∀ r ∈ st.per_file, 0 ≤ r.2.1 ∧ 0 ≤ r.2.2

/-- Branch analysis for a successful loop iteration: exactly one of the five
branches of `stepLine` produced the new state. -/
theorem stepLine_ok_cases {st st' : PState} {l : Str}
    (h : stepLine st l = Except.ok st') :
    (sfTag.isPrefixOf (pyStrip l) = true ∧ pyStrip l ≠ eorLine ∧
      st' = { st with current_file := (pyStrip l).drop 3 }) ∨
    (lfTag.isPrefixOf (pyStrip l) = true ∧ pyStrip l ≠ eorLine ∧
      ∃ n, pyInt ((pyStrip l).drop 3) = some n ∧
        st' = { st with file_found := n }) ∨
    (lhTag.isPrefixOf (pyStrip l) = true ∧ pyStrip l ≠ eorLine ∧
      ∃ n, pyInt ((pyStrip l).drop 3) = some n ∧
        st' = { st with file_hit := n }) ∨
    (pyStrip l = eorLine ∧ st' = eorNext st) ∨
    (pyStrip l ≠ eorLine ∧ st' = st) := by
  unfold stepLine at h
  split at h
  · rename_i h1
    cases h
    refine Or.inl ⟨h1, ?_, rfl⟩
    intro heq
    rw [heq] at h1
    exact absurd h1 (by decide)
  · split at h
    · rename_i h1 h2
      split at h
      · rename_i n hn
        cases h
        refine Or.inr (Or.inl ⟨h2, ?_, n, hn, rfl⟩)
        intro heq
        rw [heq] at h2
        exact absurd h2 (by decide)
      · cases h
    · split at h
      · rename_i h1 h2 h3
        split at h
        · rename_i n hn
          cases h
          refine Or.inr (Or.inr (Or.inl ⟨h3, ?_, n, hn, rfl⟩))
          intro heq
          rw [heq] at h3
          exact absurd h3 (by decide)
        · cases h
      · split at h
        · rename_i heq
          cases h
          exact Or.inr (Or.inr (Or.inr (Or.inl ⟨heq, rfl⟩)))
        · rename_i hne
          cases h
          exact Or.inr (Or.inr (Or.inr (Or.inr ⟨hne, rfl⟩)))

/-- `runLines` over an appended list runs the two parts in sequence. -/
theorem runLines_append (st : PState) (xs ys : List Str) :
    runLines st (xs ++ ys) =
      match runLines st xs with
      | Except.ok st' => runLines st' ys
      | Except.error e => Except.error e := by
  induction xs generalizing st with
  | nil => simp [runLines]
  | cons l xs ih =>
    simp only [List.cons_append, runLines]
    cases hstep : stepLine st l with
    | ok st1 => simp [ih]
    | error e => simp

theorem stepLine_totalsInv {st st' : PState} {l : Str}
    (h : stepLine st l = Except.ok st') (hi : totalsInv st) : totalsInv st' := by
  rcases stepLine_ok_cases h with
    ⟨_, _, rfl⟩ | ⟨_, _, n, _, rfl⟩ | ⟨_, _, n, _, rfl⟩ | ⟨_, rfl⟩ | ⟨_, rfl⟩ <;>
    simp_all [totalsInv, eorNext, sumFound, sumHit]

theorem runLines_totalsInv {ls : List Str} {st st' : PState}
    (h : runLines st ls = Except.ok st') (hi : totalsInv st) : totalsInv st' := by
  induction ls generalizing st with
  | nil =>
    simp only [runLines] at h
    cases h
    exact hi
  | cons l ls ih =>
    simp only [runLines] at h
    cases hstep : stepLine st l with
    | ok st1 =>
      rw [hstep] at h
      exact ih h (stepLine_totalsInv hstep hi)
    | error e =>
      rw [hstep] at h
      cases h

/-- C1: for every input file, the totals returned by `parse_lcov` are the sums
of `lines_found` / `lines_hit` over the returned records. -/
theorem C1_totals_are_sums (lines : List Str) (th tf : Int)
    (recs : List (Str × Int × Int))
    (h : parse_lcov lines = Except.ok (th, tf, recs)) :
    tf = sumFound recs ∧ th = sumHit recs := by
  unfold parse_lcov at h
  cases hr : runLines initState lines with
  | ok st =>
    rw [hr] at h
    simp only [Except.map] at h
    cases h
    have hi : totalsInv st :=
      runLines_totalsInv hr (by simp [totalsInv, initState, sumFound, sumHit])
    exact ⟨hi.1, hi.2⟩
  | error e =>
    rw [hr] at h
    cases h

/-- Witness for C1 on a concrete two-record tracefile. -/
theorem C1_witness :
    parse_lcov
        [['S','F',':','a'], ['L','F',':','1','0'], ['L','H',':','4'], eorLine,
         ['S','F',':','b'], ['L','F',':','1','0'], ['L','H',':','9'], eorLine]
      = Except.ok (13, 20, [(['a'], 4, 10), (['b'], 9, 10)]) ∧
    (20 : Int) = sumFound [(['a'], 4, 10), (['b'], 9, 10)] ∧
    (13 : Int) = sumHit [(['a'], 4, 10), (['b'], 9, 10)] :=
  ⟨rfl,
   C1_totals_are_sums
     [['S','F',':','a'], ['L','F',':','1','0'], ['L','H',':','4'], eorLine,
      ['S','F',':','b'], ['L','F',':','1','0'], ['L','H',':','9'], eorLine]
     13 20 [(['a'], 4, 10), (['b'], 9, 10)] rfl⟩

/-- C2: `parse_lcov` processes lines in order, stripping surrounding
whitespace: an `SF:` line sets the current file to the rest of the line, `LF:`
/ `LH:` set the lines-found / lines-hit accumulators to the parsed payload,
`end_of_record` appends `(current_file, file_hit, file_found)` and resets the
three accumulators to `("", 0, 0)`, and every other line leaves the state
unchanged. -/
theorem C2_line_state_machine :
    (∀ lines, parse_lcov lines =
      (runLines initState lines).map fun st =>
        (st.total_hit, st.total_found, st.per_file)) ∧
    (∀ st l ls, runLines st (l :: ls) =
      match stepLine st l with
      | Except.ok st' => runLines st' ls
      | Except.error e => Except.error e) ∧
    (∀ st raw p, pyStrip raw = sfTag ++ p →
      stepLine st raw = Except.ok { st with current_file := p }) ∧
    (∀ st raw p n, pyStrip raw = lfTag ++ p → pyInt p = some n →
      stepLine st raw = Except.ok { st with file_found := n }) ∧
    (∀ st raw p n, pyStrip raw = lhTag ++ p → pyInt p = some n →
      stepLine st raw = Except.ok { st with file_hit := n }) ∧
    (∀ st raw, pyStrip raw = eorLine →
      stepLine st raw = Except.ok
        { total_found := st.total_found + st.file_found
          total_hit := st.total_hit + st.file_hit
          per_file := st.per_file ++
            [(st.current_file, st.file_hit, st.file_found)]
          current_file := []
          file_found := 0
          file_hit := 0 }) ∧
    (∀ st raw, sfTag.isPrefixOf (pyStrip raw) = false →
      lfTag.isPrefixOf (pyStrip raw) = false →
      lhTag.isPrefixOf (pyStrip raw) = false →
      pyStrip raw ≠ eorLine →
      stepLine st raw = Except.ok st) := by
  refine ⟨fun lines => rfl, fun st l ls => rfl, ?_, ?_, ?_, ?_, ?_⟩
  · intro st raw p h
    have hpre : sfTag.isPrefixOf (sfTag ++ p) = true := by
      simp [List.isPrefixOf_iff_prefix]
    simp [stepLine, h, hpre, sfTag]
  · intro st raw p n h hn
    have h1 : ¬ (sfTag <+: ('L' :: 'F' :: ':' :: p)) := by
      intro hp
      rcases hp with ⟨t, ht⟩
      simp [sfTag] at ht
    have h2 : lfTag.isPrefixOf (lfTag ++ p) = true := by
      simp [List.isPrefixOf_iff_prefix]
    simp [stepLine, h, h1, h2, lfTag, hn]
  · intro st raw p n h hn
    have h1 : ¬ (sfTag <+: ('L' :: 'H' :: ':' :: p)) := by
      intro hp
      rcases hp with ⟨t, ht⟩
      simp [sfTag] at ht
    have h2 : ¬ (lfTag <+: ('L' :: 'H' :: ':' :: p)) := by
      intro hp
      rcases hp with ⟨t, ht⟩
      simp [lfTag] at ht
    have h3 : lhTag.isPrefixOf (lhTag ++ p) = true := by
      simp [List.isPrefixOf_iff_prefix]
    simp [stepLine, h, h1, h2, h3, lhTag, hn]
  · intro st raw h
    have h1 : sfTag.isPrefixOf eorLine = false := by decide
    have h2 : lfTag.isPrefixOf eorLine = false := by decide
    have h3 : lhTag.isPrefixOf eorLine = false := by decide
    simp [stepLine, h, h1, h2, h3, eorNext]
  · intro st raw h1 h2 h3 h4
    simp [stepLine, h1, h2, h3, h4]

/-- Witness for C2: each branch of the state machine exercised on a concrete
line. -/
theorem C2_witness :
    (parse_lcov [] = Except.ok (0, 0, [])) ∧
    (runLines initState [eorLine] =
      match stepLine initState eorLine with
      | Except.ok st' => runLines st' []
      | Except.error e => Except.error e) ∧
    (stepLine initState [' ', 'S', 'F', ':', 'a', ' '] =
      Except.ok { initState with current_file := ['a'] }) ∧
    (stepLine initState ['L', 'F', ':', '4', '2'] =
      Except.ok { initState with file_found := 42 }) ∧
    (stepLine initState ['L', 'H', ':', '7'] =
      Except.ok { initState with file_hit := 7 }) ∧
    (stepLine initState eorLine =
      Except.ok
        { total_found := initState.total_found + initState.file_found
          total_hit := initState.total_hit + initState.file_hit
          per_file := initState.per_file ++
            [(initState.current_file, initState.file_hit, initState.file_found)]
          current_file := []
          file_found := 0
          file_hit := 0 }) ∧
    (stepLine initState ['D', 'A', ':', '1', ',', '0'] =
      Except.ok initState) :=
  ⟨C2_line_state_machine.1 [],
   C2_line_state_machine.2.1 initState eorLine [],
   C2_line_state_machine.2.2.1 initState [' ', 'S', 'F', ':', 'a', ' ']
     ['a'] (by decide),
   C2_line_state_machine.2.2.2.1 initState ['L', 'F', ':', '4', '2']
     ['4', '2'] 42 (by decide) (by decide),
   C2_line_state_machine.2.2.2.2.1 initState ['L', 'H', ':', '7']
     ['7'] 7 (by decide) (by decide),
   C2_line_state_machine.2.2.2.2.2.1 initState eorLine (by decide),
   C2_line_state_machine.2.2.2.2.2.2 initState ['D', 'A', ':', '1', ',', '0']
     (by decide) (by decide) (by decide) (by decide)⟩

/-- The sort comparison used by `files_below` is transitive. -/
theorem belowLe_trans (a b c : Str × Int × Int)
    (hab : decide (belowKey a ≤ belowKey b) = true)
    (hbc : decide (belowKey b ≤ belowKey c) = true) :
    decide (belowKey a ≤ belowKey c) = true := by
  simp only [decide_eq_true_eq] at *
  exact le_trans hab hbc

/-- The sort comparison used by `files_below` is total. -/
theorem belowLe_total (a b : Str × Int × Int) :
    (decide (belowKey a ≤ belowKey b) || decide (belowKey b ≤ belowKey a)) = true := by
  simp only [Bool.or_eq_true, decide_eq_true_eq]
  exact le_total _ _

/-- For a record with positive `lines_found`, the sort key is the percentage
divided by 100. -/
theorem recPct_eq_key (r : Str × Int × Int) (h : r.2.2 ≠ 0) :
    recPct r = belowKey r * 100 := by
  simp [recPct, belowKey, h]

/-- C3: the below-threshold listing contains exactly the records with
`lines_found > 0` and percentage strictly below the minimum (as a multiset and
as a membership test), is sorted ascending by percentage, and keeps the input
order of records with tied percentages. -/
theorem C3_below_listing (minPct : ℚ) (recs : List (Str × Int × Int)) :
    (files_below minPct recs).Perm (recs.filter (belowFilter minPct)) ∧
    (∀ r, r ∈ files_below minPct recs ↔
      r ∈ recs ∧ 0 < r.2.2 ∧ recPct r < minPct) ∧
    (files_below minPct recs).Pairwise (fun a b => recPct a ≤ recPct b) ∧
    (∀ a b, List.Sublist [a, b] (recs.filter (belowFilter minPct)) →
      recPct a = recPct b →
      List.Sublist [a, b] (files_below minPct recs)) := by
  refine ⟨List.mergeSort_perm _ _, ?_, ?_, ?_⟩
  · intro r
    simp [files_below, List.mem_filter, belowFilter, recPct]
  · have hs := List.sorted_mergeSort belowLe_trans belowLe_total
      (recs.filter (belowFilter minPct))
    refine List.Pairwise.imp_of_mem ?_ hs
    intro a b ha hb hab
    have ha' : 0 < a.2.2 := by
      have := (List.mem_filter.mp (List.mem_mergeSort.mp ha)).2
      simp [belowFilter] at this
      exact this.1
    have hb' : 0 < b.2.2 := by
      have := (List.mem_filter.mp (List.mem_mergeSort.mp hb)).2
      simp [belowFilter] at this
      exact this.1
    have hab' : belowKey a ≤ belowKey b := by
      simpa using hab
    rw [recPct_eq_key a (by exact_mod_cast ha'.ne'),
        recPct_eq_key b (by exact_mod_cast hb'.ne')]
    exact mul_le_mul_of_nonneg_right hab' (by norm_num)
  · intro a b hsub heq
    have ha : a ∈ recs.filter (belowFilter minPct) :=
      hsub.subset (by simp)
    have hb : b ∈ recs.filter (belowFilter minPct) :=
      hsub.subset (by simp)
    have ha' : 0 < a.2.2 := by
      have := (List.mem_filter.mp ha).2
      simp [belowFilter] at this
      exact this.1
    have hb' : 0 < b.2.2 := by
      have := (List.mem_filter.mp hb).2
      simp [belowFilter] at this
      exact this.1
    have hkey : belowKey a = belowKey b := by
      have h100 : (100 : ℚ) ≠ 0 := by norm_num
      have := heq
      rw [recPct_eq_key a (by exact_mod_cast ha'.ne'),
          recPct_eq_key b (by exact_mod_cast hb'.ne')] at this
      exact mul_right_cancel₀ h100 this
    exact List.pair_sublist_mergeSort belowLe_trans belowLe_total
      (by simp [hkey]) hsub

/-- Witness for C3: a tied pair (both 50%) keeps its input order, and a
below-threshold record is listed. -/
theorem C3_witness :
    List.Sublist [(['a'], (1 : Int), (2 : Int)), (['b'], 2, 4)]
      (files_below 78 [(['a'], 1, 2), (['b'], 2, 4)]) ∧
    (['c'], (3 : Int), (4 : Int)) ∈ files_below 78 [(['c'], 3, 4)] :=
  ⟨(C3_below_listing 78 [(['a'], 1, 2), (['b'], 2, 4)]).2.2.2
      (['a'], 1, 2) (['b'], 2, 4)
      (by norm_num [List.filter_cons, belowFilter])
      (by norm_num [recPct]),
   ((C3_below_listing 78 [(['c'], 3, 4)]).2.1 (['c'], 3, 4)).mpr
      ⟨by simp, by norm_num, by norm_num [recPct]⟩⟩

/-- C4: with a parsed report containing a positive number of instrumented
lines, the checker passes (exit code 0) exactly when the overall percentage
`total_hit / total_found * 100` is at least the configured minimum; equality
counts as a pass. -/
theorem C4_pass_at_threshold (ls : List Str) (th tf : Int)
    (recs : List (Str × Int × Int))
    (h : parse_lcov ls = Except.ok (th, tf, recs)) (htf : 0 < tf) :
    (mainExit (some ls) = 0 ↔ minCoverage ≤ (th : ℚ) / (tf : ℚ) * 100) := by
  have htf' : tf ≠ 0 := htf.ne'
  by_cases hc : (th : ℚ) / (tf : ℚ) * 100 < minCoverage
  · simp [mainExit, mainRun, h, htf', hc, not_le.mpr hc]
  · simp [mainExit, mainRun, h, htf', hc, not_lt.mp hc]

/-- Witness for C4: a report with exactly 78% coverage passes. -/
theorem C4_witness :
    mainExit (some [['S','F',':','a'], ['L','F',':','1','0','0'],
      ['L','H',':','7','8'], eorLine]) = 0 :=
  (C4_pass_at_threshold
      [['S','F',':','a'], ['L','F',':','1','0','0'],
       ['L','H',':','7','8'], eorLine]
      78 100 [(['a'], 78, 100)] rfl (by decide)).mpr
    (by norm_num [minCoverage])

/-- C5: a parse result with `total_found = 0` makes the checker exit with
code 1 after reporting the empty-report condition on standard error only (no
percentage output at all). -/
theorem C5_empty_report (ls : List Str) (th : Int)
    (recs : List (Str × Int × Int))
    (h : parse_lcov ls = Except.ok (th, 0, recs)) :
    mainRun (some ls) = (1, [(Channel.stderr, Msg.noLinesFound)]) := by
  simp [mainRun, h]

/-- Witness for C5: an empty tracefile parses to totals `(0, 0)` and the run
fails with the empty-report message. -/
theorem C5_witness :
    mainRun (some []) = (1, [(Channel.stderr, Msg.noLinesFound)]) :=
  C5_empty_report [] 0 [] rfl

/-- C6: every run exits 0 or 1, and it exits 0 exactly when the file exists,
parses without an exception, reports a nonzero number of instrumented lines,
and the overall percentage is at least the minimum; a missing file, an empty
report, or a below-minimum percentage all exit 1. -/
theorem C6_exit_codes (content : Option (List Str)) :
    (mainExit content = 0 ∨ mainExit content = 1) ∧
    (mainExit content = 0 ↔ ∃ ls th tf recs,
      content = some ls ∧ parse_lcov ls = Except.ok (th, tf, recs) ∧
      tf ≠ 0 ∧ minCoverage ≤ (th : ℚ) / (tf : ℚ) * 100) := by
  constructor
  · cases content with
    | none => exact Or.inr rfl
    | some ls =>
      cases hp : parse_lcov ls with
      | error e => exact Or.inr (by simp [mainExit, mainRun, hp])
      | ok t =>
        obtain ⟨th, tf, recs⟩ := t
        by_cases htf : tf = 0
        · exact Or.inr (by simp [mainExit, mainRun, hp, htf])
        · by_cases hc : (th : ℚ) / (tf : ℚ) * 100 < minCoverage
          · exact Or.inr (by simp [mainExit, mainRun, hp, htf, hc])
          · exact Or.inl (by simp [mainExit, mainRun, hp, htf, hc])
  · constructor
    · intro h0
      cases content with
      | none => simp [mainExit, mainRun] at h0
      | some ls =>
        cases hp : parse_lcov ls with
        | error e => simp [mainExit, mainRun, hp] at h0
        | ok t =>
          obtain ⟨th, tf, recs⟩ := t
          by_cases htf : tf = 0
          · simp [mainExit, mainRun, hp, htf] at h0
          · by_cases hc : (th : ℚ) / (tf : ℚ) * 100 < minCoverage
            · simp [mainExit, mainRun, hp, htf, hc] at h0
            · exact ⟨ls, th, tf, recs, rfl, hp, htf, not_lt.mp hc⟩
    · rintro ⟨ls, th, tf, recs, rfl, hp, htf, hge⟩
      simp [mainExit, mainRun, hp, htf, not_lt.mpr hge]

/-- A line in the `LF:` branch is not in the `SF:` branch. -/
theorem sf_false_of_lf {s : Str} (h : lfTag.isPrefixOf s = true) :
    sfTag.isPrefixOf s = false := by
  rw [List.isPrefixOf_iff_prefix] at h
  rcases h with ⟨t, rfl⟩
  cases hq : sfTag.isPrefixOf (lfTag ++ t) with
  | false => rfl
  | true =>
    rw [List.isPrefixOf_iff_prefix] at hq
    rcases hq with ⟨u, hu⟩
    simp [sfTag, lfTag] at hu

/-- A line in the `LH:` branch is not in the `SF:` branch. -/
theorem sf_false_of_lh {s : Str} (h : lhTag.isPrefixOf s = true) :
    sfTag.isPrefixOf s = false := by
  rw [List.isPrefixOf_iff_prefix] at h
  rcases h with ⟨t, rfl⟩
  cases hq : sfTag.isPrefixOf (lhTag ++ t) with
  | false => rfl
  | true =>
    rw [List.isPrefixOf_iff_prefix] at hq
    rcases hq with ⟨u, hu⟩
    simp [sfTag, lhTag] at hu

/-- A line in the `LH:` branch is not in the `LF:` branch. -/
theorem lf_false_of_lh {s : Str} (h : lhTag.isPrefixOf s = true) :
    lfTag.isPrefixOf s = false := by
  rw [List.isPrefixOf_iff_prefix] at h
  rcases h with ⟨t, rfl⟩
  cases hq : lfTag.isPrefixOf (lhTag ++ t) with
  | false => rfl
  | true =>
    rw [List.isPrefixOf_iff_prefix] at hq
    rcases hq with ⟨u, hu⟩
    simp [lfTag, lhTag] at hu

/-- A raised iteration comes from a bad `LF:`/`LH:` payload. -/
theorem stepLine_error_bad (st : PState) (l : Str) {e : PyErr}
    (h : stepLine st l = Except.error e) : badLine l = true := by
  unfold stepLine at h
  split at h
  · simp at h
  · split at h
    · rename_i h1 h2
      split at h
      · simp at h
      · rename_i hn
        simp [badLine, h2, hn]
    · split at h
      · rename_i h1 h2 h3
        split at h
        · simp at h
        · rename_i hn
          simp [badLine, h3, hn]
      · split at h
        · simp at h
        · simp at h

/-- A line that is not bad never raises. -/
theorem stepLine_ok_not_bad (st : PState) (l : Str) (h : badLine l = false) :
    ∃ st', stepLine st l = Except.ok st' := by
  by_cases h1 : sfTag.isPrefixOf (pyStrip l) = true
  · exact ⟨{ st with current_file := (pyStrip l).drop 3 }, by simp [stepLine, h1]⟩
  · by_cases h2 : lfTag.isPrefixOf (pyStrip l) = true
    · have hne : ¬ pyInt ((pyStrip l).drop 3) = none := by
        intro hn
        simp [badLine, h2, hn] at h
      obtain ⟨n, hn⟩ := Option.ne_none_iff_exists'.mp hne
      exact ⟨{ st with file_found := n }, by simp [stepLine, h1, h2, hn]⟩
    · by_cases h3 : lhTag.isPrefixOf (pyStrip l) = true
      · have hne : ¬ pyInt ((pyStrip l).drop 3) = none := by
          intro hn
          simp [badLine, h3, hn] at h
        obtain ⟨n, hn⟩ := Option.ne_none_iff_exists'.mp hne
        exact ⟨{ st with file_hit := n }, by simp [stepLine, h1, h2, h3, hn]⟩
      · by_cases h4 : pyStrip l = eorLine
        · have e1 : ¬ (sfTag <+: eorLine) := by decide
          have e2 : ¬ (lfTag <+: eorLine) := by decide
          have e3 : ¬ (lhTag <+: eorLine) := by decide
          exact ⟨eorNext st, by simp [stepLine, h4, e1, e2, e3]⟩
        · exact ⟨st, by simp [stepLine, h1, h2, h3, h4]⟩

/-- A bad line raises `ValueError` from any state. -/
theorem stepLine_error_of_bad (st : PState) (l : Str) (h : badLine l = true) :
    stepLine st l = Except.error PyErr.valueError := by
  rw [badLine, Bool.and_eq_true, Bool.or_eq_true] at h
  obtain ⟨hpre, hnone⟩ := h
  have hn : pyInt ((pyStrip l).drop 3) = none :=
    Option.isNone_iff_eq_none.mp hnone
  cases hpre with
  | inl hlf => simp [stepLine, sf_false_of_lf hlf, hlf, hn]
  | inr hlh =>
    simp [stepLine, sf_false_of_lh hlh, lf_false_of_lh hlh, hlh, hn]

/-- If no line is bad the whole loop completes. -/
theorem runLines_ok_of_no_bad :
    ∀ (ls : List Str) (st : PState), (∀ l ∈ ls, badLine l = false) →
      ∃ st', runLines st ls = Except.ok st'
  | [], st, _ => ⟨st, rfl⟩
  | l :: ls, st, h => by
    obtain ⟨st1, hst1⟩ := stepLine_ok_not_bad st l (h l (List.mem_cons_self l ls))
    obtain ⟨st', hst'⟩ :=
      runLines_ok_of_no_bad ls st1 (fun x hx => h x (List.mem_cons_of_mem _ hx))
    exact ⟨st', by simp [runLines, hst1, hst']⟩

/-- If some line is bad the loop raises `ValueError`. -/
theorem runLines_error_of_bad :
    ∀ (ls : List Str) (st : PState), (∃ l ∈ ls, badLine l = true) →
      runLines st ls = Except.error PyErr.valueError
  | [], _, h => by
    rcases h with ⟨x, hx, _⟩
    cases hx
  | l :: ls, st, h => by
    rcases h with ⟨x, hx, hbad⟩
    rcases List.mem_cons.mp hx with rfl | hx'
    · simp [runLines, stepLine_error_of_bad st x hbad]
    · cases hs : stepLine st l with
      | error e =>
        cases e
        simp [runLines, hs]
      | ok st1 =>
        simp only [runLines, hs]
        exact runLines_error_of_bad ls st1 ⟨x, hx', hbad⟩

/-- Counterexample to C7 as stated: `LF:-5` has a payload that is not a
non-negative integer, yet `parse_lcov` does not fail — Python's `int` accepts
the sign and the record is produced with `lines_found = -5`. -/
theorem C7_counterexample :
    parse_lcov [['L', 'F', ':', '-', '5'], eorLine]
      = Except.ok (0, -5, [([], 0, -5)]) ∧
    pyInt ['-', '5'] = some (-5) :=
  ⟨rfl, rfl⟩

/-- C7 (amended): `parse_lcov` raises an uncaught `ValueError` exactly when
some `LF:`/`LH:` payload is not parseable as a (possibly signed) Python
integer; negative payloads are accepted without failure.  A missing report
file is reported on standard error with exit code 1. -/
theorem C7_parse_error_characterization (ls : List Str) :
    ((∃ e, parse_lcov ls = Except.error e) ↔ ∃ l ∈ ls, badLine l = true) ∧
    mainRun none =
      (1, [(Channel.stderr, Msg.coverageFileNotFound),
           (Channel.stderr, Msg.runFlutterTest)]) := by
  refine ⟨⟨?_, ?_⟩, rfl⟩
  · rintro ⟨e, he⟩
    by_contra hno
    push_neg at hno
    have hall : ∀ l ∈ ls, badLine l = false := by
      intro l hl
      have := hno l hl
      simpa using this
    obtain ⟨st', hst'⟩ := runLines_ok_of_no_bad ls initState hall
    rw [parse_lcov, hst'] at he
    simp [Except.map] at he
  · intro hbad
    refine ⟨PyErr.valueError, ?_⟩
    rw [parse_lcov, runLines_error_of_bad ls initState hbad]
    rfl

/-- Witness for C7's amended characterization: a non-numeric payload makes the
parse raise. -/
theorem C7_witness :
    ∃ e, parse_lcov [['L', 'F', ':', 'x']] = Except.error e :=
  (C7_parse_error_characterization [['L', 'F', ':', 'x']]).1.mpr
    ⟨['L', 'F', ':', 'x'], by simp, by decide⟩

/-- An `end_of_record` line closes the current record. -/
theorem stepLine_eor (st : PState) (raw : Str) (h : pyStrip raw = eorLine) :
    stepLine st raw = Except.ok (eorNext st) := by
  have e1 : ¬ (sfTag <+: eorLine) := by decide
  have e2 : ¬ (lfTag <+: eorLine) := by decide
  have e3 : ¬ (lhTag <+: eorLine) := by decide
  simp [stepLine, h, e1, e2, e3]

/-- Each surviving loop run closes exactly one record per `end_of_record`
line. -/
theorem runLines_length_countEor :
    ∀ (ls : List Str) (st st' : PState), runLines st ls = Except.ok st' →
      st'.per_file.length =
        st.per_file.length + ls.countP (fun l => decide (pyStrip l = eorLine))
  | [], st, st', h => by
    simp only [runLines] at h
    cases h
    simp
  | l :: ls, st, st', h => by
    simp only [runLines] at h
    cases hs : stepLine st l with
    | error e =>
      rw [hs] at h
      cases h
    | ok st1 =>
      rw [hs] at h
      have hrec := runLines_length_countEor ls st1 st' h
      rcases stepLine_ok_cases hs with
        ⟨_, hne, rfl⟩ | ⟨_, hne, n, _, rfl⟩ | ⟨_, hne, n, _, rfl⟩ |
        ⟨heq, rfl⟩ | ⟨hne, rfl⟩
      · simp only [List.countP_cons] at *
        simp [hne, hrec]
      · simp only [List.countP_cons] at *
        simp [hne, hrec]
      · simp only [List.countP_cons] at *
        simp [hne, hrec]
      · simp only [List.countP_cons] at *
        simp only [eorNext, List.length_append] at hrec
        simp [heq, hrec]
        omega
      · simp only [List.countP_cons] at *
        simp [hne, hrec]

/-- With no `SF:` line, the current-file accumulator stays empty. -/
theorem runLines_keeps_empty_file :
    ∀ (ls : List Str) (st st' : PState),
      (∀ x ∈ ls, sfTag.isPrefixOf (pyStrip x) = false) →
      st.current_file = [] →
      runLines st ls = Except.ok st' → st'.current_file = []
  | [], st, st', _, hcf, h => by
    simp only [runLines] at h
    cases h
    exact hcf
  | l :: ls, st, st', hno, hcf, h => by
    simp only [runLines] at h
    cases hs : stepLine st l with
    | error e =>
      rw [hs] at h
      cases h
    | ok st1 =>
      rw [hs] at h
      have h1 : st1.current_file = [] := by
        rcases stepLine_ok_cases hs with
          ⟨hsf, _, rfl⟩ | ⟨_, _, n, _, rfl⟩ | ⟨_, _, n, _, rfl⟩ |
          ⟨_, rfl⟩ | ⟨_, rfl⟩
        · have := hno l (List.mem_cons_self l ls)
          rw [this] at hsf
          cases hsf
        · simpa using hcf
        · simpa using hcf
        · simp [eorNext]
        · exact hcf
      exact runLines_keeps_empty_file ls st1 st'
        (fun x hx => hno x (List.mem_cons_of_mem _ hx)) h1 h

/-- Records already closed survive the rest of the run. -/
theorem runLines_mem_per_file :
    ∀ (ls : List Str) (st st' : PState) (r : Str × Int × Int),
      r ∈ st.per_file → runLines st ls = Except.ok st' → r ∈ st'.per_file
  | [], st, st', r, hr, h => by
    simp only [runLines] at h
    cases h
    exact hr
  | l :: ls, st, st', r, hr, h => by
    simp only [runLines] at h
    cases hs : stepLine st l with
    | error e =>
      rw [hs] at h
      cases h
    | ok st1 =>
      rw [hs] at h
      have h1 : r ∈ st1.per_file := by
        rcases stepLine_ok_cases hs with
          ⟨_, _, rfl⟩ | ⟨_, _, n, _, rfl⟩ | ⟨_, _, n, _, rfl⟩ |
          ⟨_, rfl⟩ | ⟨_, rfl⟩ <;>
          simp [eorNext, hr]
      exact runLines_mem_per_file ls st1 st' r h1 h

/-- C8: each `end_of_record` line of a successfully parsed file produces
exactly one record (so a repeated file path gives two separate records, never
merged), and an `end_of_record` with no preceding `SF:` line yields a record
with an empty file path, accepted in the output. -/
theorem C8_records_per_eor :
    (∀ ls th tf recs, parse_lcov ls = Except.ok (th, tf, recs) →
      recs.length = ls.countP (fun l => decide (pyStrip l = eorLine))) ∧
    (∀ pre l rest th tf recs,
      (∀ x ∈ pre, sfTag.isPrefixOf (pyStrip x) = false) →
      pyStrip l = eorLine →
      parse_lcov (pre ++ l :: rest) = Except.ok (th, tf, recs) →
      ∃ hit found, (([] : Str), hit, found) ∈ recs) := by
  constructor
  · intro ls th tf recs h
    rw [parse_lcov] at h
    cases hr : runLines initState ls with
    | error e =>
      rw [hr] at h
      cases h
    | ok st =>
      rw [hr] at h
      simp only [Except.map] at h
      cases h
      have := runLines_length_countEor ls initState st hr
      simpa [initState] using this
  · intro pre l rest th tf recs hno hl h
    rw [parse_lcov] at h
    cases hr : runLines initState (pre ++ l :: rest) with
    | error e =>
      rw [hr] at h
      cases h
    | ok stF =>
      rw [hr] at h
      simp only [Except.map] at h
      cases h
      have hsplit := runLines_append initState pre (l :: rest)
      rw [hr] at hsplit
      cases hpre : runLines initState pre with
      | error e =>
        rw [hpre] at hsplit
        cases hsplit
      | ok st1 =>
        rw [hpre] at hsplit
        have hcf : st1.current_file = [] :=
          runLines_keeps_empty_file pre initState st1 hno rfl hpre
        simp only [runLines, stepLine_eor st1 l hl] at hsplit
        have hmem : (([] : Str), st1.file_hit, st1.file_found) ∈
            (eorNext st1).per_file := by
          simp [eorNext, hcf]
        exact ⟨st1.file_hit, st1.file_found,
          runLines_mem_per_file rest (eorNext st1) stF _ hmem hsplit.symm⟩

/-- Witness for C8: a duplicated `SF:` path yields two records, and a bare
`end_of_record` yields one record with an empty path. -/
theorem C8_witness :
    (([(['a'], (1 : Int), (2 : Int)), (['a'], 3, 4)] :
        List (Str × Int × Int)).length =
      List.countP (fun l => decide (pyStrip l = eorLine))
        [['S','F',':','a'], ['L','F',':','2'], ['L','H',':','1'], eorLine,
         ['S','F',':','a'], ['L','F',':','4'], ['L','H',':','3'], eorLine]) ∧
    (∃ hit found, (([] : Str), hit, found) ∈
      ([(([] : Str), (0 : Int), (0 : Int))] : List (Str × Int × Int))) :=
  ⟨C8_records_per_eor.1
      [['S','F',':','a'], ['L','F',':','2'], ['L','H',':','1'], eorLine,
       ['S','F',':','a'], ['L','F',':','4'], ['L','H',':','3'], eorLine]
      4 6 [(['a'], 1, 2), (['a'], 3, 4)] rfl,
   C8_records_per_eor.2 [] eorLine [] 0 0 [([], 0, 0)]
      (by simp) rfl rfl⟩

/-- A surviving iteration preserves non-negativity when the line's parsed
payload (if it is an `LF:`/`LH:` line) is non-negative. -/
theorem stepLine_nonneg {st st' : PState} {l : Str}
    (hline : (lfTag.isPrefixOf (pyStrip l) || lhTag.isPrefixOf (pyStrip l)) = true →
      ∀ n : Int, pyInt ((pyStrip l).drop 3) = some n → 0 ≤ n)
    (h : stepLine st l = Except.ok st') (hi : nonnegInv st) : nonnegInv st' := by
  obtain ⟨h1, h2, h3⟩ := hi
  rcases stepLine_ok_cases h with
    ⟨_, _, rfl⟩ | ⟨hlf, _, n, hn, rfl⟩ | ⟨hlh, _, n, hn, rfl⟩ |
    ⟨_, rfl⟩ | ⟨_, rfl⟩
  · exact ⟨h1, h2, h3⟩
  · exact ⟨hline (by simp [hlf]) n hn, h2, h3⟩
  · exact ⟨h1, hline (by simp [hlh]) n hn, h3⟩
  · refine ⟨le_refl 0, le_refl 0, ?_⟩
    intro r hr
    simp only [eorNext, List.mem_append, List.mem_singleton] at hr
    rcases hr with hr | rfl
    · exact h3 r hr
    · exact ⟨h2, h1⟩
  · exact ⟨h1, h2, h3⟩

/-- Loop version of `stepLine_nonneg`. -/
theorem runLines_nonneg :
    ∀ (ls : List Str) (st st' : PState),
      (∀ l ∈ ls,
        (lfTag.isPrefixOf (pyStrip l) || lhTag.isPrefixOf (pyStrip l)) = true →
        ∀ n : Int, pyInt ((pyStrip l).drop 3) = some n → 0 ≤ n) →
      nonnegInv st → runLines st ls = Except.ok st' → nonnegInv st'
  | [], st, st', _, hi, h => by
    simp only [runLines] at h
    cases h
    exact hi
  | l :: ls, st, st', hnn, hi, h => by
    simp only [runLines] at h
    cases hs : stepLine st l with
    | error e =>
      rw [hs] at h
      cases h
    | ok st1 =>
      rw [hs] at h
      exact runLines_nonneg ls st1 st'
        (fun x hx => hnn x (List.mem_cons_of_mem _ hx))
        (stepLine_nonneg (hnn l (List.mem_cons_self l ls)) hs hi) h

/-- Counterexample to C9 as stated: Python's `int` accepts signed payloads, so
`LF:-5` / `LH:-3` produce a record with negative fields. -/
theorem C9_counterexample :
    parse_lcov [['S','F',':','a'], ['L','F',':','-','5'],
        ['L','H',':','-','3'], eorLine]
      = Except.ok (-3, -5, [(['a'], -3, -5)]) ∧
    ((-3 : Int) < 0 ∧ (-5 : Int) < 0) :=
  ⟨rfl, by decide⟩

/-- C9 (amended): records have `lines_hit ≥ 0` and `lines_found ≥ 0` provided
every `LF:`/`LH:` payload that parses is non-negative; the parser itself does
not enforce this (it accepts signed payloads, see the counterexample). -/
theorem C9_records_nonneg (ls : List Str) (th tf : Int)
    (recs : List (Str × Int × Int))
    (hnn : ∀ l ∈ ls,
      (lfTag.isPrefixOf (pyStrip l) || lhTag.isPrefixOf (pyStrip l)) = true →
      ∀ n : Int, pyInt ((pyStrip l).drop 3) = some n → 0 ≤ n)
    (h : parse_lcov ls = Except.ok (th, tf, recs)) :
    ∀ r ∈ recs, 0 ≤ r.2.1 ∧ 0 ≤ r.2.2 := by
  rw [parse_lcov] at h
  cases hr : runLines initState ls with
  | error e =>
    rw [hr] at h
    cases h
  | ok st =>
    rw [hr] at h
    simp only [Except.map] at h
    cases h
    have : nonnegInv st := by
      refine runLines_nonneg ls initState st hnn ?_ hr
      exact ⟨le_refl 0, le_refl 0, by simp [initState]⟩
    exact this.2.2

/-- Witness for C9's amended statement on a tracefile with non-negative
payloads. -/
theorem C9_witness :
    (0 : Int) ≤ ((['a'], (1 : Int), (2 : Int)) : Str × Int × Int).2.1 ∧
    (0 : Int) ≤ ((['a'], (1 : Int), (2 : Int)) : Str × Int × Int).2.2 :=
  C9_records_nonneg
    [['S','F',':','a'], ['L','F',':','2'], ['L','H',':','1'], eorLine]
    1 2 [(['a'], 1, 2)]
    (by
      intro l hl
      fin_cases hl
      · intro hpre
        exact absurd hpre (by decide)
      · intro _ n hn
        have h2 : pyInt ((pyStrip ['L','F',':','2']).drop 3) = some 2 := rfl
        rw [h2] at hn
        cases hn
        decide
      · intro _ n hn
        have h1 : pyInt ((pyStrip ['L','H',':','1']).drop 3) = some 1 := rfl
        rw [h1] at hn
        cases hn
        decide
      · intro hpre
        exact absurd hpre (by decide))
    rfl (['a'], 1, 2) (by simp)

/-- A tail of lines without `end_of_record` changes no totals and no
records. -/
theorem runLines_no_eor_keeps :
    ∀ (tail : List Str) (st st' : PState),
      (∀ l ∈ tail, pyStrip l ≠ eorLine) →
      runLines st tail = Except.ok st' →
      st'.per_file = st.per_file ∧ st'.total_found = st.total_found ∧
        st'.total_hit = st.total_hit
  | [], st, st', _, h => by
    simp only [runLines] at h
    cases h
    exact ⟨rfl, rfl, rfl⟩
  | l :: ls, st, st', hno, h => by
    simp only [runLines] at h
    cases hs : stepLine st l with
    | error e =>
      rw [hs] at h
      cases h
    | ok st1 =>
      rw [hs] at h
      have hrec := runLines_no_eor_keeps ls st1 st'
        (fun x hx => hno x (List.mem_cons_of_mem _ hx)) h
      rcases stepLine_ok_cases hs with
        ⟨_, _, rfl⟩ | ⟨_, _, n, _, rfl⟩ | ⟨_, _, n, _, rfl⟩ |
        ⟨heq, rfl⟩ | ⟨_, rfl⟩
      · simpa using hrec
      · simpa using hrec
      · simpa using hrec
      · exact absurd heq (hno l (List.mem_cons_self l ls))
      · exact hrec

/-- C10: trailing `SF:`/`LF:`/`LH:` directives with no later `end_of_record`
contribute nothing — dropping such a tail leaves the parse result unchanged. -/
theorem C10_unclosed_tail_ignored (ls tail : List Str) (th tf : Int)
    (recs : List (Str × Int × Int))
    (htail : ∀ l ∈ tail, pyStrip l ≠ eorLine)
    (h : parse_lcov (ls ++ tail) = Except.ok (th, tf, recs)) :
    parse_lcov ls = Except.ok (th, tf, recs) := by
  rw [parse_lcov] at h ⊢
  cases hr : runLines initState (ls ++ tail) with
  | error e =>
    rw [hr] at h
    cases h
  | ok stF =>
    rw [hr] at h
    simp only [Except.map] at h
    cases h
    have hsplit := runLines_append initState ls tail
    rw [hr] at hsplit
    cases hpre : runLines initState ls with
    | error e =>
      rw [hpre] at hsplit
      cases hsplit
    | ok st1 =>
      rw [hpre] at hsplit
      obtain ⟨h1, h2, h3⟩ := runLines_no_eor_keeps tail st1 stF htail hsplit.symm
      simp [Except.map, h1, h2, h3]

/-- Witness for C10: an unclosed trailing `SF:`/`LF:` pair is ignored. -/
theorem C10_witness :
    parse_lcov [['S','F',':','a'], ['L','F',':','2'], ['L','H',':','1'], eorLine]
      = Except.ok (1, 2, [(['a'], 1, 2)]) :=
  C10_unclosed_tail_ignored
    [['S','F',':','a'], ['L','F',':','2'], ['L','H',':','1'], eorLine]
    [['S','F',':','b'], ['L','F',':','9']]
    1 2 [(['a'], 1, 2)] (by decide) rfl
